import Mathlib

/-!
Verification development for the FlowScope eBPF egress monitor and flow
tracker (src/ebpf/egress_monitor.c and src/ebpf/flow_tracker.c).

The hook programs are modelled as pure functions over a parsed view of the
packet (`SkbMeta`), the ambient kernel context of the invocation (timestamps,
current-task identity, map-capacity and ring-buffer availability), and the
explicit state of the BPF maps.  Machine integers (`__u16`/`__u32`/`__u64`)
are modelled as `Nat`; the byte-order helpers `bpf_ntohs`/`bpf_ntohl` are
modelled explicitly as byte swaps, and counters are `Nat` (they are 64-bit in
the source; no property considered here concerns wraparound).
-/

/-- Protocol number for TCP (`IPPROTO_TCP`). -/
def IPPROTO_TCP : Nat := 6

/-- Protocol number for UDP (`IPPROTO_UDP`). -/
def IPPROTO_UDP : Nat := 17

/-- EtherType of IPv4 (`ETH_P_IP`), host byte order. -/
def ETH_P_IP : Nat := 0x0800

/-- Traffic-control verdict `TC_ACT_OK`: let the packet pass. -/
def TC_ACT_OK : Nat := 0

/-- Maximum number of configured CIDR entries (`MAX_CIDR_ENTRIES`). -/
def MAX_CIDR_ENTRIES : Nat := 256

/-- Byte swap of a 16-bit value: `bpf_ntohs`/`bpf_htons` on a little-endian
host (the two are the same function). -/
def ntohs (x : Nat) : Nat := (x % 256) * 256 + (x / 256) % 256

/-- Byte swap of a 32-bit value: `bpf_ntohl` on a little-endian host. -/
def ntohl (x : Nat) : Nat :=
  (x % 256) * 0x1000000 + ((x / 256) % 256) * 0x10000 +
    ((x / 0x10000) % 256) * 0x100 + (x / 0x1000000) % 256

/-- A configured cluster CIDR range (`struct cidr_range`). -/
structure CidrRange where
  network : Nat
  mask : Nat
deriving DecidableEq

/-- State of the two configuration maps read by the classifier: the single
slot of `cidr_count` and the `cluster_cidrs` array.  BPF map lookups can in
principle fail, hence `Option`. -/
structure ClassifierConfig where
  cidr_count : Option Nat
  cluster_cidrs : Nat → Option CidrRange

/-- The scan loop of `is_internal_ip`: examine entries `i, i+1, ...`,
stopping when `fuel` runs out (the loop is bounded at 16 iterations in the
source) or when `i` reaches `num` (the clamped configured count),
short-circuiting on the first entry whose masked network matches the masked
address. -/
def cidrScan (cidrs : Nat → Option CidrRange) (num ip : Nat) : Nat → Nat → Bool
  | _, 0 => false
  | i, fuel + 1 =>
    if num ≤ i then false
    else
      match cidrs i with
      | none => cidrScan cidrs num ip (i + 1) fuel
      | some r =>
        if ip &&& r.mask = r.network &&& r.mask then true
        else cidrScan cidrs num ip (i + 1) fuel

/-- `is_internal_ip` from egress_monitor.c: does the (network-order) address
match one of the configured cluster CIDR ranges?  The configured count is
clamped to `MAX_CIDR_ENTRIES` and the loop scans at most the first 16
entries. -/
def is_internal_ip (cfg : ClassifierConfig) (ip : Nat) : Bool :=
  match cfg.cidr_count with
  | none => false
  | some count => cidrScan cfg.cluster_cidrs (min count MAX_CIDR_ENTRIES) ip 0 16

/-- `is_private_ip` from egress_monitor.c: hard-coded private ranges
10.0.0.0/8, 172.16.0.0/12, 192.168.0.0/16 and 127.0.0.0/8, tested on the
host-order form `ip_host = bpf_ntohl(ip)` of the address. -/
def is_private_ip (ip : Nat) : Bool :=
  if ntohl ip &&& 0xFF000000 = 0x0A000000 then true
  else if ntohl ip &&& 0xFFF00000 = 0xAC100000 then true
  else if ntohl ip &&& 0xFFFF0000 = 0xC0A80000 then true
  else if ntohl ip &&& 0xFF000000 = 0x7F000000 then true
  else false

/-- Result of the address classifier. -/
inductive Classification where
  | Internal
  | External
deriving DecidableEq

/-- The address classifier: the combined internality test applied to the
destination on the egress path (egress_monitor.c line 140); an address that
is neither private nor cluster-internal is External. -/
def classify (cfg : ClassifierConfig) (ip : Nat) : Classification :=
  if is_private_ip ip || is_internal_ip cfg ip then .Internal else .External

/-- Flow key (`struct flow_key`); the pad bytes are always zeroed by
`create_flow_key`. -/
structure FlowKey where
  src_ip : Nat
  dst_ip : Nat
  src_port : Nat
  dst_port : Nat
  protocol : Nat
  pad0 : Nat
  pad1 : Nat
  pad2 : Nat
deriving DecidableEq

/-- Flow metrics (`struct flow_metrics`). -/
structure FlowMetrics where
  bytes_sent : Nat
  bytes_received : Nat
  packets_sent : Nat
  packets_received : Nat
  start_time_ns : Nat
  last_seen_ns : Nat
  pid : Nat
  uid : Nat
  comm : String
deriving DecidableEq

/-- `create_flow_key` from flow_tracker.c. -/
def create_flow_key (src_ip dst_ip src_port dst_port protocol : Nat) : FlowKey :=
  { src_ip := src_ip, dst_ip := dst_ip, src_port := src_port,
    dst_port := dst_port, protocol := protocol, pad0 := 0, pad1 := 0, pad2 := 0 }

/-- Parsed view of an `__sk_buff` as the hook programs see it.  The `_ok`
flags stand for the pointer bounds checks of the corresponding header;
`eth_proto`, addresses and ports are the raw network-order header fields.
The TCP and UDP branches of each hook read source/destination ports from the
same offsets, so a single pair of fields covers both. -/
structure SkbMeta where
  len : Nat
  eth_ok : Bool
  eth_proto : Nat
  ip_ok : Bool
  protocol : Nat
  saddr : Nat
  daddr : Nat
  l4_ok : Bool
  sport : Nat
  dport : Nat
deriving DecidableEq

/-- Ambient kernel context of one egress-hook invocation: the clock
(`bpf_ktime_get_ns`), the current-task helpers (`bpf_get_current_pid_tgid`,
`bpf_get_current_uid_gid`, `bpf_get_current_comm`), and whether the hash-map
insert finds capacity (the ignored error path of `bpf_map_update_elem`). -/
structure EgressCtx where
  now : Nat
  pid_tgid : Nat
  uid_gid : Nat
  comm : String
  insert_ok : Bool
deriving DecidableEq

/-- State of the `flow_map` BPF hash map. -/
def FlowTable := FlowKey → Option FlowMetrics

/-- Flow key built by `track_egress` (source as initiator). -/
def egressKey (skb : SkbMeta) : FlowKey :=
  create_flow_key skb.saddr skb.daddr (ntohs skb.sport) (ntohs skb.dport) skb.protocol

/-- Flow key built by `track_ingress`: source and destination are swapped so
the lookup lands on the entry created by the egress direction. -/
def ingressKey (skb : SkbMeta) : FlowKey :=
  create_flow_key skb.daddr skb.saddr (ntohs skb.dport) (ntohs skb.sport) skb.protocol

/-- The fresh metrics record built for a new flow (`track_egress`, new-flow
arm): `bpf_get_current_pid_tgid() >> 32` is the pid, the low 32 bits of
`bpf_get_current_uid_gid()` the uid. -/
def outboundFresh (skb : SkbMeta) (ctx : EgressCtx) : FlowMetrics :=
  { bytes_sent := skb.len, bytes_received := 0, packets_sent := 1,
    packets_received := 0, start_time_ns := ctx.now, last_seen_ns := ctx.now,
    pid := ctx.pid_tgid >>> 32, uid := ctx.uid_gid &&& 0xFFFFFFFF, comm := ctx.comm }

/-- The update applied to an existing flow by `track_egress`: two atomic
fetch-adds and a store of `last_seen_ns`. -/
def outboundBump (m : FlowMetrics) (skb : SkbMeta) (ctx : EgressCtx) : FlowMetrics :=
  { m with
    bytes_sent := m.bytes_sent + skb.len,
    packets_sent := m.packets_sent + 1,
    last_seen_ns := ctx.now }

/-- The update applied to an existing flow by `track_ingress`. -/
def inboundBump (m : FlowMetrics) (skb : SkbMeta) (now : Nat) : FlowMetrics :=
  { m with
    bytes_received := m.bytes_received + skb.len,
    packets_received := m.packets_received + 1,
    last_seen_ns := now }

/-- `track_egress` from flow_tracker.c: parse guards, then insert-or-update
of the flow entry; returns the updated `flow_map` and the verdict (always 1,
allow). -/
def track_egress (skb : SkbMeta) (ctx : EgressCtx) (m : FlowTable) :
    FlowTable × Nat :=
  if skb.eth_ok = false then (m, 1)
  else if ntohs skb.eth_proto ≠ ETH_P_IP then (m, 1)
  else if skb.ip_ok = false then (m, 1)
  else if skb.protocol ≠ IPPROTO_TCP ∧ skb.protocol ≠ IPPROTO_UDP then (m, 1)
  else if skb.l4_ok = false then (m, 1)
  else
    match m (egressKey skb) with
    | none =>
      (if ctx.insert_ok then
        Function.update m (egressKey skb) (some (outboundFresh skb ctx))
      else m, 1)
    | some metrics =>
      (Function.update m (egressKey skb) (some (outboundBump metrics skb ctx)), 1)

/-- `track_ingress` from flow_tracker.c: same parse guards, reversed key,
update-only (no entry is ever created); returns the updated `flow_map` and
the verdict (always 1, allow). -/
def track_ingress (skb : SkbMeta) (now : Nat) (m : FlowTable) :
    FlowTable × Nat :=
  if skb.eth_ok = false then (m, 1)
  else if ntohs skb.eth_proto ≠ ETH_P_IP then (m, 1)
  else if skb.ip_ok = false then (m, 1)
  else if skb.protocol ≠ IPPROTO_TCP ∧ skb.protocol ≠ IPPROTO_UDP then (m, 1)
  else if skb.l4_ok = false then (m, 1)
  else
    match m (ingressKey skb) with
    | none => (m, 1)
    | some metrics =>
      (Function.update m (ingressKey skb) (some (inboundBump metrics skb now)), 1)

/-- An egress event (`struct egress_event`); pad fields omitted. -/
structure EgressEvent where
  src_ip : Nat
  dst_ip : Nat
  src_port : Nat
  dst_port : Nat
  protocol : Nat
  bytes : Nat
  timestamp_ns : Nat
  pid : Nat
deriving DecidableEq

/-- State owned by the egress monitor: the `egress_bytes` per-destination
hash map and the sequence of events submitted to the `egress_events` ring
buffer so far. -/
structure EgressMonState where
  egress_bytes : Nat → Option Nat
  events : List EgressEvent

/-- Ambient context of one `monitor_egress` invocation: classifier
configuration maps, clock, capacity of the `egress_bytes` insert, and
availability of ring-buffer space (`bpf_ringbuf_reserve`). -/
structure MonCtx where
  cfg : ClassifierConfig
  now : Nat
  insert_ok : Bool
  ringbuf_ok : Bool

/-- The `egress_bytes` counter update of `monitor_egress`: atomic fetch-add
on an existing entry, otherwise insert of the initial value (which may be
dropped at capacity). -/
def bumpEgressBytes (st : EgressMonState) (daddr len : Nat) (insert_ok : Bool) :
    EgressMonState :=
  match st.egress_bytes daddr with
  | some b =>
    { st with egress_bytes := Function.update st.egress_bytes daddr (some (b + len)) }
  | none =>
    if insert_ok then
      { st with egress_bytes := Function.update st.egress_bytes daddr (some len) }
    else st

/-- The event record filled in by `monitor_egress` before
`bpf_ringbuf_submit`; the pid is hard-coded to 0 (not available in TC
context, per the source comment). -/
def mkEgressEvent (skb : SkbMeta) (ctx : MonCtx) : EgressEvent :=
  { src_ip := skb.saddr, dst_ip := skb.daddr, src_port := ntohs skb.sport,
    dst_port := ntohs skb.dport, protocol := skb.protocol, bytes := skb.len,
    timestamp_ns := ctx.now, pid := 0 }

/-- `monitor_egress` from egress_monitor.c: parse guards, internality check
on the destination (returning early for internal traffic), then the
`egress_bytes` update and the best-effort event emission; the verdict is
always `TC_ACT_OK`. -/
def monitor_egress (skb : SkbMeta) (ctx : MonCtx) (st : EgressMonState) :
    EgressMonState × Nat :=
  if skb.eth_ok = false then (st, TC_ACT_OK)
  else if skb.eth_proto ≠ ntohs ETH_P_IP then (st, TC_ACT_OK)
  else if skb.ip_ok = false then (st, TC_ACT_OK)
  else if skb.protocol ≠ IPPROTO_TCP ∧ skb.protocol ≠ IPPROTO_UDP then (st, TC_ACT_OK)
  else if is_private_ip skb.daddr || is_internal_ip ctx.cfg skb.daddr then (st, TC_ACT_OK)
  else if skb.l4_ok = false then (st, TC_ACT_OK)
  else
    let st1 := bumpEgressBytes st skb.daddr skb.len ctx.insert_ok
    if ctx.ringbuf_ok = false then (st1, TC_ACT_OK)
    else ({ st1 with events := st1.events ++ [mkEgressEvent skb ctx] }, TC_ACT_OK)

/-- A flow snapshot event (`struct flow_event`). -/
structure FlowEvent where
  key : FlowKey
  metrics : FlowMetrics
  event_type : Nat
  direction : Nat
deriving DecidableEq

/-- `flush_flows` from flow_tracker.c, one iterator invocation: the flow map
is in scope but only read; the result is the table (returned so the frame
property is expressible), the optionally emitted snapshot event, and the
iterator return code (0 = continue the walk). -/
def flush_flows (m : FlowTable) (key : Option FlowKey)
    (metrics : Option FlowMetrics) (ringbuf_ok : Bool) :
    FlowTable × Option FlowEvent × Nat :=
  match key, metrics with
  | some k, some met =>
    if ringbuf_ok = false then (m, none, 0)
    else (m, some { key := k, metrics := met, event_type := 0, direction := 0 }, 0)
  | _, _ => (m, none, 0)

/-- Modelled from the spec: the external iterator driver (the `bpf_iter`
infrastructure triggering `flush_flows` once per flow-table entry) is not in
src/; `flush(reason)` walks every entry, invoking `flush_flows` with that
entry and the ring-buffer availability of the moment, collecting the emitted
events. -/
def flushWalk (m : FlowTable) :
    List ((FlowKey × FlowMetrics) × Bool) → FlowTable × List FlowEvent
  | [] => (m, [])
  | (e, ok) :: rest =>
    let r := flush_flows m (some e.1) (some e.2) ok
    let w := flushWalk r.1 rest
    match r.2.1 with
    | some ev => (w.1, ev :: w.2)
    | none => (w.1, w.2)

/-- The packet parses past every guard of the flow-tracker hooks: headers in
bounds, IPv4 ethertype (stored network-order in the header field), TCP or
UDP. -/
def parsedOk (skb : SkbMeta) : Prop :=
  skb.eth_ok = true ∧ skb.eth_proto = ntohs ETH_P_IP ∧ skb.ip_ok = true ∧
    (skb.protocol = IPPROTO_TCP ∨ skb.protocol = IPPROTO_UDP) ∧ skb.l4_ok = true

instance (skb : SkbMeta) : Decidable (parsedOk skb) := by
  unfold parsedOk; infer_instance

/-- One packet-path operation on the flow table: an egress-hook invocation
with its kernel context, or an ingress-hook invocation with its timestamp. -/
inductive FlowOp where
  | out (skb : SkbMeta) (ctx : EgressCtx)
  | inn (skb : SkbMeta) (now : Nat)

/-- Apply one hook invocation to the flow table. -/
def applyOp (m : FlowTable) : FlowOp → FlowTable
  | .out skb ctx => (track_egress skb ctx m).1
  | .inn skb now => (track_ingress skb now m).1

/-- Apply a sequence of hook invocations to the flow table. -/
def runOps (m : FlowTable) : List FlowOp → FlowTable
  | [] => m
  | op :: rest => runOps (applyOp m op) rest

/-- Apply a sequence of ingress-hook invocations to the flow table. -/
def runIngress (m : FlowTable) : List (SkbMeta × Nat) → FlowTable
  | [] => m
  | p :: rest => runIngress (track_ingress p.1 p.2 m).1 rest

/-- The operation parses fully, its canonical key is `k`, and (for the
outbound hook) its insert finds capacity. -/
def opKeyed (k : FlowKey) : FlowOp → Prop
  | .out skb ctx => parsedOk skb ∧ egressKey skb = k ∧ ctx.insert_ok = true
  | .inn skb _ => parsedOk skb ∧ ingressKey skb = k

/-- Outbound packet length contributed by an operation. -/
def outLen : FlowOp → Nat
  | .out skb _ => skb.len
  | .inn _ _ => 0

/-- Outbound packet count contributed by an operation. -/
def outCnt : FlowOp → Nat
  | .out _ _ => 1
  | .inn _ _ => 0

/-- Inbound packet length contributed by an operation. -/
def inLen : FlowOp → Nat
  | .out _ _ => 0
  | .inn skb _ => skb.len

/-- Inbound packet count contributed by an operation. -/
def inCnt : FlowOp → Nat
  | .out _ _ => 0
  | .inn _ _ => 1

/-- Progress of one thread through the lookup-then-write window of the
`track_egress` upsert (flow_tracker.c lines 134-154). -/
inductive UpsertPhase where
  | start
  | sawAbsent
  | sawPresent
  | done
deriving DecidableEq

/-- Shared state of the first-sight upsert race for one flow key: the table
slot for that key and each thread's phase. -/
structure RaceState where
  tbl : Option FlowMetrics
  phase : Nat → UpsertPhase

/-- One scheduler step of the upsert race: thread `t` (if it exists) either
performs its `bpf_map_lookup_elem` (recording presence or absence), or
performs the write its lookup chose: `bpf_map_update_elem` of a fresh record
after an absent lookup, or the atomic fetch-adds on the current entry after
a present lookup. -/
def upsertStep (N : Nat) (args : Nat → SkbMeta × EgressCtx) (s : RaceState)
    (t : Nat) : RaceState :=
  if t < N then
    match s.phase t with
    | .start =>
      { s with
        phase := Function.update s.phase t
          (match s.tbl with | none => .sawAbsent | some _ => .sawPresent) }
    | .sawAbsent =>
      { tbl := some (outboundFresh (args t).1 (args t).2),
        phase := Function.update s.phase t .done }
    | .sawPresent =>
      { tbl := match s.tbl with
          | some met => some (outboundBump met (args t).1 (args t).2)
          | none => s.tbl,
        phase := Function.update s.phase t .done }
    | .done => s
  else s

/-- Run the race under a schedule (a list of thread indices). -/
def raceRun (N : Nat) (args : Nat → SkbMeta × EgressCtx) (s : RaceState) :
    List Nat → RaceState
  | [] => s
  | t :: rest => raceRun N args (upsertStep N args s t) rest

/-- Initial race state: the key is absent and every thread is about to do
its lookup. -/
def raceInit : RaceState := { tbl := none, phase := fun _ => .start }

/-- Number of threads among `0, ..., n-1` that have completed their write. -/
def doneCount (f : Nat → UpsertPhase) : Nat → Nat
  | 0 => 0
  | n + 1 => doneCount f n + (if f n = .done then 1 else 0)

/-- Invariant of the upsert race: while the slot is empty no thread has
written (nor seen a present entry), and once it is filled its packet count
is at least 1 and at most the number of completed threads. -/
def raceInv (N : Nat) (s : RaceState) : Prop :=
  (s.tbl = none → ∀ i, s.phase i = .start ∨ s.phase i = .sawAbsent) ∧
    (∀ met, s.tbl = some met →
      1 ≤ met.packets_sent ∧ met.packets_sent ≤ doneCount s.phase N)

/-- The empty flow table. -/
def emptyTable : FlowTable := fun _ => none

/-- A concrete fully-parsed outbound TCP packet. -/
def skbOut0 : SkbMeta :=
  { len := 100, eth_ok := true, eth_proto := 8, ip_ok := true, protocol := 6,
    saddr := 0x0500000A, daddr := 0x2222, l4_ok := true, sport := 1, dport := 2 }

/-- The reply packet of `skbOut0`: addresses and ports swapped. -/
def skbIn0 : SkbMeta :=
  { len := 50, eth_ok := true, eth_proto := 8, ip_ok := true, protocol := 6,
    saddr := 0x2222, daddr := 0x0500000A, l4_ok := true, sport := 2, dport := 1 }

/-- A concrete outbound packet to 10.1.1.1 (network order 0x0101010A), an
address in the hard-coded private range 10.0.0.0/8. -/
def skbInt0 : SkbMeta :=
  { len := 100, eth_ok := true, eth_proto := 8, ip_ok := true, protocol := 6,
    saddr := 5, daddr := 0x0101010A, l4_ok := true, sport := 1, dport := 2 }

/-- A concrete outbound packet to 8.8.8.8 (network order 0x08080808), an
external address. -/
def skbExt0 : SkbMeta :=
  { len := 100, eth_ok := true, eth_proto := 8, ip_ok := true, protocol := 6,
    saddr := 5, daddr := 0x08080808, l4_ok := true, sport := 1, dport := 2 }

/-- A concrete egress-hook kernel context. -/
def ctxOut0 : EgressCtx :=
  { now := 5, pid_tgid := 42 <<< 32, uid_gid := 1000, comm := "curl",
    insert_ok := true }

/-- A concrete monitor context with no configured cluster CIDRs. -/
def mctx0 : MonCtx :=
  { cfg := { cidr_count := none, cluster_cidrs := fun _ => none },
    now := 9, insert_ok := true, ringbuf_ok := true }

/-- A concrete empty monitor state. -/
def st0 : EgressMonState := { egress_bytes := fun _ => none, events := [] }

/-- A configuration with 17 configured entries in which only the entry at
index 16 matches the address 1: every entry below 16 matches only the
address 2. -/
def cfgCx : ClassifierConfig :=
  { cidr_count := some 17,
    cluster_cidrs := fun i =>
      if i = 16 then some { network := 1, mask := 0xFFFFFFFF }
      else some { network := 2, mask := 0xFFFFFFFF } }

/-! ## Classifier lemmas and claim C1 -/

/-- Characterisation of the CIDR scan loop: it reports a match exactly when
some entry at an index in `[i, i + fuel)` below the clamped count
matches. -/
theorem cidrScan_iff (cidrs : Nat → Option CidrRange) (num ip : Nat) :
    ∀ fuel i, cidrScan cidrs num ip i fuel = true ↔
      ∃ j, i ≤ j ∧ j < i + fuel ∧ j < num ∧
        ∃ r, cidrs j = some r ∧ ip &&& r.mask = r.network &&& r.mask := by
  intro fuel
  induction fuel with
  | zero =>
    intro i
    rw [cidrScan]
    constructor
    · intro h; exact absurd h (by simp)
    · rintro ⟨j, hij, hjf, -⟩; omega
  | succ n ih =>
    intro i
    rw [cidrScan]
    by_cases hnum : num ≤ i
    · simp only [hnum, if_true]
      constructor
      · intro h; exact absurd h (by simp)
      · rintro ⟨j, hij, -, hjnum, -⟩; omega
    · simp only [hnum, if_false]
      cases hc : cidrs i with
      | none =>
        rw [ih (i + 1)]
        constructor
        · rintro ⟨j, hij, hjf, hjnum, r, hr, hm⟩
          exact ⟨j, by omega, by omega, hjnum, r, hr, hm⟩
        · rintro ⟨j, hij, hjf, hjnum, r, hr, hm⟩
          rcases Nat.eq_or_lt_of_le hij with h | h
          · rw [← h] at hr; rw [hc] at hr; cases hr
          · exact ⟨j, by omega, by omega, hjnum, r, hr, hm⟩
      | some r =>
        by_cases hm : ip &&& r.mask = r.network &&& r.mask
        · simp only [hm, if_true, true_iff]
          exact ⟨i, le_refl i, by omega, by omega, r, hc, hm⟩
        · simp only [hm, if_false]
          rw [ih (i + 1)]
          constructor
          · rintro ⟨j, hij, hjf, hjnum, r', hr', hm'⟩
            exact ⟨j, by omega, by omega, hjnum, r', hr', hm'⟩
          · rintro ⟨j, hij, hjf, hjnum, r', hr', hm'⟩
            rcases Nat.eq_or_lt_of_le hij with h | h
            · rw [← h] at hr'; rw [hc] at hr'
              cases hr'; exact absurd hm' hm
            · exact ⟨j, by omega, by omega, hjnum, r', hr', hm'⟩

/-- Characterisation of `is_internal_ip`: a configured count must be
readable, and some entry at an index below both the count and 16 must
match. -/
theorem is_internal_ip_iff (cfg : ClassifierConfig) (ip : Nat) :
    is_internal_ip cfg ip = true ↔
      ∃ count, cfg.cidr_count = some count ∧
        ∃ i, i < count ∧ i < 16 ∧
          ∃ r, cfg.cluster_cidrs i = some r ∧
            ip &&& r.mask = r.network &&& r.mask := by
  unfold is_internal_ip
  cases hc : cfg.cidr_count with
  | none =>
    constructor
    · intro h; exact absurd h (by simp)
    · rintro ⟨count, hcount, -⟩; exact Option.noConfusion hcount
  | some count =>
    rw [cidrScan_iff]
    constructor
    · rintro ⟨j, -, hj16, hjnum, r, hr, hm⟩
      have hjc : j < count := lt_of_lt_of_le hjnum (min_le_left _ _)
      exact ⟨count, rfl, j, hjc, by omega, r, hr, hm⟩
    · rintro ⟨count', hcount', j, hjc, hj16, r, hr, hm⟩
      cases hcount'
      refine ⟨j, Nat.zero_le j, by omega, ?_, r, hr, hm⟩
      exact lt_min hjc (by unfold MAX_CIDR_ENTRIES; omega)

/-- Characterisation of `is_private_ip` as the four hard-coded ranges. -/
theorem is_private_ip_iff (ip : Nat) :
    is_private_ip ip = true ↔
      (ntohl ip &&& 0xFF000000 = 0x0A000000 ∨
       ntohl ip &&& 0xFFF00000 = 0xAC100000 ∨
       ntohl ip &&& 0xFFFF0000 = 0xC0A80000 ∨
       ntohl ip &&& 0xFF000000 = 0x7F000000) := by
  unfold is_private_ip
  split_ifs with h1 h2 h3 h4 <;> simp_all

/-- C1 counterexample: with 17 configured entries, a matching entry at index
16 (an index below the configured count) does not yield Internal — the scan
loop stops after the first 16 entries, so the address is classified
External. -/
theorem c1_counterexample :
    cfgCx.cidr_count = some 17 ∧ (16 : Nat) < 17 ∧
      cfgCx.cluster_cidrs 16 = some { network := 1, mask := 0xFFFFFFFF } ∧
      (1 : Nat) &&& 0xFFFFFFFF = (1 : Nat) &&& 0xFFFFFFFF ∧
      classify cfgCx 1 = Classification.External := by
  refine ⟨rfl, by omega, rfl, rfl, ?_⟩
  decide

/-- C1 (amended): the classifier decides Internal exactly when the address
is in one of the four hard-coded private ranges, or a readable configured
count exists and some configured entry at an index below both the count and
16 matches by `(address & mask) == (network & mask)`; the scan is in order
and short-circuits on the first match, but examines at most the first 16
configured entries. -/
theorem c1_classifier_internal_iff (cfg : ClassifierConfig) (ip : Nat) :
    classify cfg ip = Classification.Internal ↔
      ((ntohl ip &&& 0xFF000000 = 0x0A000000 ∨
        ntohl ip &&& 0xFFF00000 = 0xAC100000 ∨
        ntohl ip &&& 0xFFFF0000 = 0xC0A80000 ∨
        ntohl ip &&& 0xFF000000 = 0x7F000000) ∨
       ∃ count, cfg.cidr_count = some count ∧
         ∃ i, i < count ∧ i < 16 ∧
           ∃ r, cfg.cluster_cidrs i = some r ∧
             ip &&& r.mask = r.network &&& r.mask) := by
  unfold classify
  by_cases h : (is_private_ip ip || is_internal_ip cfg ip) = true
  · simp only [h, if_true, true_iff]
    rcases Bool.or_eq_true_iff.mp h with hp | hi
    · exact Or.inl ((is_private_ip_iff ip).mp hp)
    · exact Or.inr ((is_internal_ip_iff cfg ip).mp hi)
  · simp only [h, if_false]
    constructor
    · intro hc; cases hc
    · intro hc
      exfalso
      apply h
      rcases hc with hp | hi
      · exact Bool.or_eq_true_iff.mpr (Or.inl ((is_private_ip_iff ip).mpr hp))
      · exact Bool.or_eq_true_iff.mpr (Or.inr ((is_internal_ip_iff cfg ip).mpr hi))

/-! ## Flow tracker lemmas and claims C3, C4, C5 -/

/-- Unfolding of `track_egress` for a fully parsed packet. -/
theorem track_egress_parsed (skb : SkbMeta) (ctx : EgressCtx) (m : FlowTable)
    (hp : parsedOk skb) :
    track_egress skb ctx m =
      (match m (egressKey skb) with
       | none =>
         if ctx.insert_ok then
           Function.update m (egressKey skb) (some (outboundFresh skb ctx))
         else m
       | some metrics =>
         Function.update m (egressKey skb) (some (outboundBump metrics skb ctx)),
       1) := by
  obtain ⟨h1, h2, h3, h4, h5⟩ := hp
  rcases h4 with h4 | h4 <;>
    simp [track_egress, h1, h2, h3, h4, h5, ETH_P_IP, IPPROTO_TCP, IPPROTO_UDP, ntohs] <;>
    rcases m (egressKey skb) with _ | met <;> rfl

/-- Unfolding of `track_ingress` for a fully parsed packet. -/
theorem track_ingress_parsed (skb : SkbMeta) (now : Nat) (m : FlowTable)
    (hp : parsedOk skb) :
    track_ingress skb now m =
      (match m (ingressKey skb) with
       | none => m
       | some metrics =>
         Function.update m (ingressKey skb) (some (inboundBump metrics skb now)),
       1) := by
  obtain ⟨h1, h2, h3, h4, h5⟩ := hp
  rcases h4 with h4 | h4 <;>
    simp [track_ingress, h1, h2, h3, h4, h5, ETH_P_IP, IPPROTO_TCP, IPPROTO_UDP, ntohs] <;>
    rcases m (ingressKey skb) with _ | met <;> rfl

/-- The ingress hook never fills an absent slot: a key that is unmapped
before an ingress invocation is still unmapped after it. -/
theorem track_ingress_preserves_none (skb : SkbMeta) (now : Nat) (m : FlowTable)
    (k : FlowKey) (h : m k = none) : (track_ingress skb now m).1 k = none := by
  unfold track_ingress
  split_ifs <;> try exact h
  cases hmk : m (ingressKey skb) with
  | none => exact h
  | some met =>
    by_cases hk : k = ingressKey skb
    · rw [hk] at h; rw [h] at hmk; cases hmk
    · simpa [Function.update_noteq hk] using h

/-- C3: flow-key canonicalisation is direction-symmetric: the key the egress
hook builds from source `(A, pA)` and destination `(B, pB)` equals the key
the ingress hook builds from source `(B, pB)` and destination `(A, pA)`, for
every 5-tuple with a TCP or UDP protocol, so both directions of a connection
map to the same flow-table entry. -/
theorem c3_canonicalization_symmetric (A B pA pB proto : Nat)
    (_hproto : proto = IPPROTO_TCP ∨ proto = IPPROTO_UDP)
    (skbOut skbIn : SkbMeta)
    (ho1 : skbOut.saddr = A) (ho2 : skbOut.daddr = B)
    (ho3 : skbOut.sport = pA) (ho4 : skbOut.dport = pB)
    (ho5 : skbOut.protocol = proto)
    (hi1 : skbIn.saddr = B) (hi2 : skbIn.daddr = A)
    (hi3 : skbIn.sport = pB) (hi4 : skbIn.dport = pA)
    (hi5 : skbIn.protocol = proto) :
    egressKey skbOut = ingressKey skbIn := by
  unfold egressKey ingressKey
  rw [ho1, ho2, ho3, ho4, ho5, hi1, hi2, hi3, hi4, hi5]

/-- Witness for C3 at a concrete 5-tuple. -/
theorem c3_witness : egressKey skbOut0 = ingressKey skbIn0 :=
  c3_canonicalization_symmetric 0x0500000A 0x2222 1 2 6 (Or.inl rfl)
    skbOut0 skbIn0 rfl rfl rfl rfl rfl rfl rfl rfl rfl rfl

/-- Sequences of ingress invocations preserve absence of any key. -/
theorem runIngress_preserves_none (ops : List (SkbMeta × Nat)) (m : FlowTable)
    (k : FlowKey) (h : m k = none) : runIngress m ops k = none := by
  induction ops generalizing m with
  | nil => exact h
  | cons p rest ih => exact ih _ (track_ingress_preserves_none p.1 p.2 m k h)

/-- C4: inbound processing never creates a flow-table entry: starting from a
table with no entry for a key, any sequence of ingress invocations for that
key leaves the table still without an entry for that key. -/
theorem c4_no_inbound_creation (m : FlowTable) (k : FlowKey)
    (ops : List (SkbMeta × Nat)) (_hk : ∀ p ∈ ops, ingressKey p.1 = k)
    (h : m k = none) : runIngress m ops k = none :=
  runIngress_preserves_none ops m k h

/-- Witness for C4: one concrete ingress packet on the empty table. -/
theorem c4_witness : runIngress emptyTable [(skbIn0, 7)] (egressKey skbOut0) = none :=
  c4_no_inbound_creation emptyTable (egressKey skbOut0) [(skbIn0, 7)]
    (by
      intro p hp
      rw [List.mem_singleton] at hp
      rw [hp]
      decide)
    rfl

/-- C5: the outbound upsert contract of `track_egress`: on a fully parsed
packet whose insert finds capacity, an absent key gets a fresh entry whose
`bytes_sent` is the packet length, `packets_sent` is 1, `start_time_ns` and
`last_seen_ns` are the invocation timestamp, and whose process identity is
the one supplied by the kernel helpers; a present key has the packet length
added to `bytes_sent`, `packets_sent` incremented, and `last_seen_ns` set to
the timestamp, with every other field (start time, received counters,
process identity) unchanged. -/
theorem c5_upsert_contract (skb : SkbMeta) (ctx : EgressCtx) (m : FlowTable)
    (hp : parsedOk skb) (hins : ctx.insert_ok = true) :
    (m (egressKey skb) = none →
      (track_egress skb ctx m).1 (egressKey skb) =
        some { bytes_sent := skb.len, bytes_received := 0, packets_sent := 1,
               packets_received := 0, start_time_ns := ctx.now,
               last_seen_ns := ctx.now, pid := ctx.pid_tgid >>> 32,
               uid := ctx.uid_gid &&& 0xFFFFFFFF, comm := ctx.comm }) ∧
    (∀ old, m (egressKey skb) = some old →
      (track_egress skb ctx m).1 (egressKey skb) =
        some { old with
               bytes_sent := old.bytes_sent + skb.len,
               packets_sent := old.packets_sent + 1,
               last_seen_ns := ctx.now }) := by
  constructor
  · intro hnone
    rw [track_egress_parsed skb ctx m hp]
    simp only [hnone, hins, if_true]
    rw [Function.update_same]
    rfl
  · intro old hold
    rw [track_egress_parsed skb ctx m hp]
    simp only [hold]
    rw [Function.update_same]
    rfl

/-- Witness for C5: the creation arm at a concrete packet on the empty
table. -/
theorem c5_witness :
    (track_egress skbOut0 ctxOut0 emptyTable).1 (egressKey skbOut0) =
      some { bytes_sent := 100, bytes_received := 0, packets_sent := 1,
             packets_received := 0, start_time_ns := 5, last_seen_ns := 5,
             pid := 42, uid := 1000, comm := "curl" } :=
  (c5_upsert_contract skbOut0 ctxOut0 emptyTable (by decide) rfl).1 rfl

/-! ## Verdicts, internal-destination gating, event pid: claims C7, C6, C10 -/

/-- The byte-counter update never touches the event list. -/
theorem bumpEgressBytes_events (st : EgressMonState) (daddr len : Nat)
    (insert_ok : Bool) : (bumpEgressBytes st daddr len insert_ok).events = st.events := by
  unfold bumpEgressBytes
  rcases st.egress_bytes daddr with _ | b
  · split_ifs <;> rfl
  · rfl

/-- C7: every exit path of every packet-path hook returns the allow verdict,
for every input: the egress monitor returns `TC_ACT_OK` and the two
flow-tracker hooks return 1, including on truncated headers, non-IP or
non-TCP/UDP packets, exhausted map capacity (`insert_ok = false`) and a full
ring buffer (`ringbuf_ok = false`). -/
theorem c7_always_allow (skb : SkbMeta) (mctx : MonCtx) (st : EgressMonState)
    (ectx : EgressCtx) (m : FlowTable) (now : Nat) :
    (monitor_egress skb mctx st).2 = TC_ACT_OK ∧
      (track_egress skb ectx m).2 = 1 ∧ (track_ingress skb now m).2 = 1 := by
  refine ⟨?_, ?_, ?_⟩
  · unfold monitor_egress
    split_ifs <;> try rfl
  · unfold track_egress
    split_ifs <;> try rfl
    all_goals rcases m (egressKey skb) with _ | met <;> rfl
  · unfold track_ingress
    split_ifs <;> try rfl
    all_goals rcases m (ingressKey skb) with _ | met <;> rfl

/-- C6: classification gates only the egress-specific side effects: for a
fully parsed outbound packet whose destination is classified Internal, the
egress monitor leaves its whole state (byte aggregator and event list)
unchanged and returns `TC_ACT_OK` without emitting anything, while the flow
tracker still performs the ordinary outbound upsert on that packet: a fresh
entry on an absent key (given capacity), the ordinary counter update on a
present key. -/
theorem c6_internal_gating (skb : SkbMeta) (mctx : MonCtx) (ectx : EgressCtx)
    (st : EgressMonState) (m : FlowTable) (hp : parsedOk skb)
    (hint : classify mctx.cfg skb.daddr = Classification.Internal) :
    ((monitor_egress skb mctx st).1 = st ∧
      (monitor_egress skb mctx st).2 = TC_ACT_OK) ∧
    (ectx.insert_ok = true → m (egressKey skb) = none →
      (track_egress skb ectx m).1 (egressKey skb) = some (outboundFresh skb ectx)) ∧
    (∀ old, m (egressKey skb) = some old →
      (track_egress skb ectx m).1 (egressKey skb) =
        some (outboundBump old skb ectx)) := by
  have hcls : (is_private_ip skb.daddr || is_internal_ip mctx.cfg skb.daddr) = true := by
    by_contra hcon
    unfold classify at hint
    simp only [hcon, if_false] at hint
    cases hint
  obtain ⟨h1, h2, h3, h4, h5⟩ := hp
  have hmon : monitor_egress skb mctx st = (st, TC_ACT_OK) := by
    rcases h4 with h4 | h4 <;>
      simp [monitor_egress, h1, h2, h3, h4, h5, hcls, ETH_P_IP, IPPROTO_TCP,
        IPPROTO_UDP, ntohs]
  refine ⟨⟨by rw [hmon], by rw [hmon]⟩, ?_, ?_⟩
  · intro hins hnone
    rw [track_egress_parsed skb ectx m ⟨h1, h2, h3, h4, h5⟩]
    simp only [hnone, hins, if_true]
    exact Function.update_same _ _ _
  · intro old hold
    rw [track_egress_parsed skb ectx m ⟨h1, h2, h3, h4, h5⟩]
    simp only [hold]
    exact Function.update_same _ _ _

/-- Witness for C6: a packet to 10.1.1.1 leaves the monitor state untouched
and passes the packet. -/
theorem c6_witness :
    (monitor_egress skbInt0 mctx0 st0).1 = st0 ∧
      (monitor_egress skbInt0 mctx0 st0).2 = TC_ACT_OK :=
  (c6_internal_gating skbInt0 mctx0 ctxOut0 st0 emptyTable (by decide) (by decide)).1

/-- C10: every event the egress monitor appends to the ring buffer carries
`pid = 0`, whatever the packet and context: an event in the post-state event
list was either already there or has a zero pid. -/
theorem c10_event_pid_zero (skb : SkbMeta) (mctx : MonCtx) (st : EgressMonState)
    (e : EgressEvent) (he : e ∈ (monitor_egress skb mctx st).1.events) :
    e ∈ st.events ∨ e.pid = 0 := by
  unfold monitor_egress at he
  split_ifs at he <;> try exact Or.inl he
  · exact Or.inl (by simpa [bumpEgressBytes_events] using he)
  · have he' : e ∈ st.events ∨ e = mkEgressEvent skb mctx := by
      simpa [bumpEgressBytes_events, List.mem_append, List.mem_singleton] using he
    rcases he' with h | h
    · exact Or.inl h
    · rw [h]
      exact Or.inr rfl

/-- Witness for C10: the event emitted for a concrete external packet. -/
theorem c10_witness :
    mkEgressEvent skbExt0 mctx0 ∈ st0.events ∨ (mkEgressEvent skbExt0 mctx0).pid = 0 :=
  c10_event_pid_zero skbExt0 mctx0 st0 (mkEgressEvent skbExt0 mctx0) (by decide)

/-! ## Flush walker: claim C8 -/

/-- C8: the flush walker is read-only and drop-resilient: a whole walk
returns the flow table unchanged and emits exactly one `FlowSnapshot`-style
event (`event_type = 0`, `direction = 0`, direction left to the consumer)
per visited entry whose ring-buffer reservation succeeds, skipping — but not
aborting on — entries whose reservation is dropped; moreover every single
`flush_flows` invocation returns 0, the continue-the-walk iterator code. -/
theorem c8_flush_readonly_resilient :
    (∀ (m : FlowTable) (entries : List ((FlowKey × FlowMetrics) × Bool)),
      flushWalk m entries =
        (m, (entries.filter (fun e => e.2)).map
          (fun e => { key := e.1.1, metrics := e.1.2, event_type := 0,
                      direction := 0 }))) ∧
    (∀ (m : FlowTable) (key : Option FlowKey) (metrics : Option FlowMetrics)
      (ok : Bool), (flush_flows m key metrics ok).2.2 = 0) := by
  constructor
  · intro m entries
    induction entries generalizing m with
    | nil => rfl
    | cons p rest ih =>
      rcases p with ⟨e, ok⟩
      cases ok <;> simp [flushWalk, flush_flows, ih, List.filter]
  · intro m key metrics ok
    rcases key with _ | k
    · rfl
    · rcases metrics with _ | met
      · rfl
      · unfold flush_flows
        split_ifs <;> rfl

/-! ## First-sight upsert race: claim C2 -/

/-- Completed-thread count is bounded by the thread count. -/
theorem doneCount_le (f : Nat → UpsertPhase) (n : Nat) : doneCount f n ≤ n := by
  induction n with
  | zero => exact le_refl 0
  | succ k ih =>
    unfold doneCount
    split_ifs <;> omega

/-- Updating a thread that had not completed cannot decrease the completed
count. -/
theorem doneCount_update_le (f : Nat → UpsertPhase) (t : Nat) (p : UpsertPhase)
    (h : f t ≠ .done) (n : Nat) :
    doneCount f n ≤ doneCount (Function.update f t p) n := by
  induction n with
  | zero => exact le_refl 0
  | succ k ih =>
    unfold doneCount
    by_cases hk : k = t
    · subst hk
      rw [Function.update_same]
      simp only [h, if_false]
      split_ifs <;> omega
    · rw [Function.update_noteq hk]
      split_ifs <;> omega

/-- Marking an uncompleted thread below `n` as done increases the completed
count by at least one. -/
theorem doneCount_update_done (f : Nat → UpsertPhase) (t n : Nat)
    (h : f t ≠ .done) (ht : t < n) :
    doneCount f n + 1 ≤ doneCount (Function.update f t .done) n := by
  induction n with
  | zero => omega
  | succ k ih =>
    unfold doneCount
    by_cases hk : t = k
    · subst hk
      rw [Function.update_same]
      have hle := doneCount_update_le f t .done h t
      simp only [h, if_false, if_true]
      omega
    · rw [Function.update_noteq (fun hc => hk hc.symm)]
      have ht' : t < k := by omega
      have := ih ht'
      split_ifs <;> omega

/-- A completed thread below `n` makes the completed count positive. -/
theorem doneCount_pos (f : Nat → UpsertPhase) (t n : Nat) (ht : t < n)
    (h : f t = .done) : 1 ≤ doneCount f n := by
  induction n with
  | zero => omega
  | succ k ih =>
    unfold doneCount
    by_cases hk : t = k
    · subst hk
      simp only [h, if_true]
      omega
    · have := ih (by omega)
      split_ifs <;> omega

/-- One scheduler step preserves the race invariant. -/
theorem raceInv_step (N : Nat) (args : Nat → SkbMeta × EgressCtx)
    (s : RaceState) (t : Nat) (h : raceInv N s) :
    raceInv N (upsertStep N args s t) := by
  obtain ⟨h1, h2⟩ := h
  unfold upsertStep
  by_cases htN : t < N
  · simp only [htN, if_true]
    cases hph : s.phase t with
    | start =>
      refine ⟨?_, ?_⟩
      · intro htbl i
        simp only at htbl ⊢
        rw [htbl]
        by_cases hit : i = t
        · subst hit
          rw [Function.update_same]
          exact Or.inr rfl
        · rw [Function.update_noteq hit]
          exact h1 htbl i
      · intro met htbl
        simp only at htbl ⊢
        obtain ⟨hm1, hm2⟩ := h2 met htbl
        refine ⟨hm1, le_trans hm2 ?_⟩
        exact doneCount_update_le s.phase t _ (by rw [hph]; simp) N
    | sawAbsent =>
      refine ⟨?_, ?_⟩
      · intro htbl
        simp only at htbl
        cases htbl
      · intro met htbl
        simp only at htbl
        cases htbl
        refine ⟨le_refl 1, ?_⟩
        exact doneCount_pos _ t N htN (Function.update_same _ _ _)
    | sawPresent =>
      cases htbl : s.tbl with
      | none =>
        rcases h1 htbl t with hc | hc <;> rw [hph] at hc <;> cases hc
      | some met =>
        refine ⟨?_, ?_⟩
        · intro habs
          simp only [htbl] at habs
          cases habs
        · intro met' htbl'
          simp only [htbl] at htbl'
          cases htbl'
          obtain ⟨hm1, hm2⟩ := h2 met htbl
          constructor
          · simp only [outboundBump]
            omega
          · have hstep := doneCount_update_done s.phase t N (by rw [hph]; simp) htN
            simp only [outboundBump]
            omega
    | done => exact ⟨h1, h2⟩
  · simp only [htN, if_false]
    exact ⟨h1, h2⟩

/-- Any schedule from any invariant-satisfying state preserves the
invariant. -/
theorem raceRun_inv (N : Nat) (args : Nat → SkbMeta × EgressCtx)
    (sched : List Nat) (s : RaceState) (h : raceInv N s) :
    raceInv N (raceRun N args s sched) := by
  induction sched generalizing s with
  | nil => exact h
  | cons t rest ih => exact ih _ (raceInv_step N args s t h)

/-- The initial race state satisfies the invariant. -/
theorem raceInv_init (N : Nat) : raceInv N raceInit := by
  constructor
  · intro _ i
    exact Or.inl rfl
  · intro met htbl
    cases htbl

/-- C2 counterexample: two threads racing the first-sight upsert of the same
absent key, both completing their lookup before either writes, leave a final
entry with `packets_sent = 1`, not 2: the second insert overwrites the
first. -/
theorem c2_counterexample :
    (raceRun 2 (fun _ => (skbOut0, ctxOut0)) raceInit [0, 1, 0, 1]).phase 0 =
        UpsertPhase.done ∧
      (raceRun 2 (fun _ => (skbOut0, ctxOut0)) raceInit [0, 1, 0, 1]).phase 1 =
        UpsertPhase.done ∧
      Option.map (fun met => met.packets_sent)
        (raceRun 2 (fun _ => (skbOut0, ctxOut0)) raceInit [0, 1, 0, 1]).tbl =
        some 1 := by
  refine ⟨rfl, rfl, rfl⟩

/-- C2 (amended): N concurrent first-sight upserts of the same absent key,
interleaved under any schedule in which every thread completes, leave
exactly one entry for the key (the slot is filled), whose final
`packets_sent` is at least 1 and at most N; it can be less than N because
the unsynchronized lookup-then-insert window lets a late insert overwrite
earlier increments. -/
theorem c2_race_bounds (N : Nat) (args : Nat → SkbMeta × EgressCtx)
    (sched : List Nat) (hN : 0 < N)
    (hdone : ∀ i, i < N →
      (raceRun N args raceInit sched).phase i = UpsertPhase.done) :
    ∃ met, (raceRun N args raceInit sched).tbl = some met ∧
      1 ≤ met.packets_sent ∧ met.packets_sent ≤ N := by
  obtain ⟨h1, h2⟩ := raceRun_inv N args sched raceInit (raceInv_init N)
  cases htbl : (raceRun N args raceInit sched).tbl with
  | none =>
    exfalso
    rcases h1 htbl 0 with hc | hc <;> rw [hdone 0 hN] at hc <;> cases hc
  | some met =>
    obtain ⟨hm1, hm2⟩ := h2 met htbl
    exact ⟨met, rfl, hm1, le_trans hm2 (doneCount_le _ N)⟩

/-- Witness for C2: one thread, run to completion, yields packets_sent 1. -/
theorem c2_witness :
    Option.map (fun met => met.packets_sent)
      (raceRun 1 (fun _ => (skbOut0, ctxOut0)) raceInit [0, 0]).tbl = some 1 := by
  obtain ⟨met, h1, h2, h3⟩ :=
    c2_race_bounds 1 (fun _ => (skbOut0, ctxOut0)) [0, 0] (by omega) (by decide)
  rw [h1]
  have : met.packets_sent = 1 := by omega
  rw [Option.map_some']
  rw [this]

/-! ## Direction-separated counters: claim C9 -/

/-- Case analysis of the egress hook's effect on one key: either the slot is
untouched, or the key is the packet's egress key and the slot went from
absent to the fresh record, or from a present record to its outbound
bump. -/
theorem track_egress_at (skb : SkbMeta) (ctx : EgressCtx) (m : FlowTable)
    (k : FlowKey) :
    (track_egress skb ctx m).1 k = m k ∨
      (k = egressKey skb ∧ m k = none ∧
        (track_egress skb ctx m).1 k = some (outboundFresh skb ctx)) ∨
      (k = egressKey skb ∧ ∃ met, m k = some met ∧
        (track_egress skb ctx m).1 k = some (outboundBump met skb ctx)) := by
  unfold track_egress
  split_ifs <;> try (left; rfl)
  · rcases hmk : m (egressKey skb) with _ | met
    · by_cases hk : k = egressKey skb
      · refine Or.inr (Or.inl ⟨hk, by rw [hk]; exact hmk, ?_⟩)
        show Function.update m (egressKey skb) (some (outboundFresh skb ctx)) k = _
        rw [hk, Function.update_same]
      · left
        show Function.update m (egressKey skb) (some (outboundFresh skb ctx)) k = m k
        rw [Function.update_noteq hk]
    · by_cases hk : k = egressKey skb
      · refine Or.inr (Or.inr ⟨hk, met, by rw [hk]; exact hmk, ?_⟩)
        show Function.update m (egressKey skb) (some (outboundBump met skb ctx)) k = _
        rw [hk, Function.update_same]
      · left
        show Function.update m (egressKey skb) (some (outboundBump met skb ctx)) k = m k
        rw [Function.update_noteq hk]
  · rcases hmk : m (egressKey skb) with _ | met
    · left; rfl
    · by_cases hk : k = egressKey skb
      · refine Or.inr (Or.inr ⟨hk, met, by rw [hk]; exact hmk, ?_⟩)
        show Function.update m (egressKey skb) (some (outboundBump met skb ctx)) k = _
        rw [hk, Function.update_same]
      · left
        show Function.update m (egressKey skb) (some (outboundBump met skb ctx)) k = m k
        rw [Function.update_noteq hk]

/-- Case analysis of the ingress hook's effect on one key: either the slot
is untouched, or the key is the packet's ingress key and a present record
got its inbound bump. -/
theorem track_ingress_at (skb : SkbMeta) (now : Nat) (m : FlowTable)
    (k : FlowKey) :
    (track_ingress skb now m).1 k = m k ∨
      (k = ingressKey skb ∧ ∃ met, m k = some met ∧
        (track_ingress skb now m).1 k = some (inboundBump met skb now)) := by
  unfold track_ingress
  split_ifs <;> try (left; rfl)
  rcases hmk : m (ingressKey skb) with _ | met
  · left; rfl
  · by_cases hk : k = ingressKey skb
    · refine Or.inr ⟨hk, met, by rw [hk]; exact hmk, ?_⟩
      show Function.update m (ingressKey skb) (some (inboundBump met skb now)) k = _
      rw [hk, Function.update_same]
    · left
      show Function.update m (ingressKey skb) (some (inboundBump met skb now)) k = m k
      rw [Function.update_noteq hk]

/-- Accumulation over a keyed operation sequence starting from a present
entry: each direction's counters end at their start value plus the total
length and count of that direction's packets. -/
theorem runOps_keyed_sum (k : FlowKey) (ops : List FlowOp) :
    ∀ (m : FlowTable) (met : FlowMetrics), (∀ op ∈ ops, opKeyed k op) →
      m k = some met →
      ∃ met', runOps m ops k = some met' ∧
        met'.bytes_sent = met.bytes_sent + (ops.map outLen).sum ∧
        met'.packets_sent = met.packets_sent + (ops.map outCnt).sum ∧
        met'.bytes_received = met.bytes_received + (ops.map inLen).sum ∧
        met'.packets_received = met.packets_received + (ops.map inCnt).sum := by
  induction ops with
  | nil =>
    intro m met _ hm
    exact ⟨met, hm, by simp, by simp, by simp, by simp⟩
  | cons op rest ih =>
    intro m met hops hm
    have hop := hops op (List.mem_cons_self op rest)
    have hrest : ∀ o ∈ rest, opKeyed k o :=
      fun o ho => hops o (List.mem_cons_of_mem op ho)
    cases op with
    | out skb ctx =>
      obtain ⟨hp, hkk, hins⟩ := hop
      have hstep : applyOp m (FlowOp.out skb ctx) k = some (outboundBump met skb ctx) := by
        show (track_egress skb ctx m).1 k = _
        rw [track_egress_parsed skb ctx m hp]
        simp only [hkk, hm]
        exact Function.update_same _ _ _
      obtain ⟨met', h1, h2, h3, h4, h5⟩ :=
        ih (applyOp m (FlowOp.out skb ctx)) (outboundBump met skb ctx) hrest hstep
      refine ⟨met', h1, ?_, ?_, ?_, ?_⟩ <;>
        simp only [outboundBump, List.map_cons, List.sum_cons, outLen, outCnt,
          inLen, inCnt] at h2 h3 h4 h5 ⊢ <;>
        omega
    | inn skb now =>
      obtain ⟨hp, hkk⟩ := hop
      have hstep : applyOp m (FlowOp.inn skb now) k = some (inboundBump met skb now) := by
        show (track_ingress skb now m).1 k = _
        rw [track_ingress_parsed skb now m hp]
        simp only [hkk, hm]
        exact Function.update_same _ _ _
      obtain ⟨met', h1, h2, h3, h4, h5⟩ :=
        ih (applyOp m (FlowOp.inn skb now)) (inboundBump met skb now) hrest hstep
      refine ⟨met', h1, ?_, ?_, ?_, ?_⟩ <;>
        simp only [inboundBump, List.map_cons, List.sum_cons, outLen, outCnt,
          inLen, inCnt] at h2 h3 h4 h5 ⊢ <;>
        omega

/-- C9: the counters are direction-separated, monotone, and exact: (i) the
ingress hook never changes `bytes_sent`/`packets_sent` of any slot (and
never fills one); (ii) the egress hook never changes
`bytes_received`/`packets_received` of a present slot; (iii) every hook
invocation leaves all four counters of a surviving slot non-decreasing;
(iv) starting from an absent key, an egress invocation followed by any
keyed sequence of hook invocations ends with `bytes_sent`/`packets_sent`
equal to the total outbound length/count and
`bytes_received`/`packets_received` equal to the total inbound
length/count. -/
theorem c9_direction_counters :
    (∀ (skb : SkbMeta) (now : Nat) (m : FlowTable) (k : FlowKey) met',
      (track_ingress skb now m).1 k = some met' →
      ∃ met, m k = some met ∧ met'.bytes_sent = met.bytes_sent ∧
        met'.packets_sent = met.packets_sent) ∧
    (∀ (skb : SkbMeta) (ctx : EgressCtx) (m : FlowTable) (k : FlowKey) met met',
      m k = some met → (track_egress skb ctx m).1 k = some met' →
      met'.bytes_received = met.bytes_received ∧
        met'.packets_received = met.packets_received) ∧
    (∀ (op : FlowOp) (m : FlowTable) (k : FlowKey) met met',
      m k = some met → applyOp m op k = some met' →
      met.bytes_sent ≤ met'.bytes_sent ∧
        met.bytes_received ≤ met'.bytes_received ∧
        met.packets_sent ≤ met'.packets_sent ∧
        met.packets_received ≤ met'.packets_received) ∧
    (∀ (k : FlowKey) (skb : SkbMeta) (ctx : EgressCtx) (ops : List FlowOp)
      (m : FlowTable), m k = none → opKeyed k (FlowOp.out skb ctx) →
      (∀ op ∈ ops, opKeyed k op) →
      ∃ met, runOps m (FlowOp.out skb ctx :: ops) k = some met ∧
        met.bytes_sent = skb.len + (ops.map outLen).sum ∧
        met.packets_sent = 1 + (ops.map outCnt).sum ∧
        met.bytes_received = (ops.map inLen).sum ∧
        met.packets_received = (ops.map inCnt).sum) := by
  refine ⟨?_, ?_, ?_, ?_⟩
  · intro skb now m k met' he
    rcases track_ingress_at skb now m k with h | ⟨-, met, hm, hr⟩
    · rw [he] at h
      exact ⟨met', h.symm, rfl, rfl⟩
    · rw [he] at hr
      cases hr
      exact ⟨met, hm, rfl, rfl⟩
  · intro skb ctx m k met met' hm he
    rcases track_egress_at skb ctx m k with h | ⟨-, hnone, -⟩ | ⟨-, met0, hm0, hr⟩
    · rw [he] at h
      rw [hm] at h
      cases h
      exact ⟨rfl, rfl⟩
    · rw [hm] at hnone
      cases hnone
    · rw [hm] at hm0
      cases hm0
      rw [he] at hr
      cases hr
      exact ⟨rfl, rfl⟩
  · intro op m k met met' hm he
    cases op with
    | out skb ctx =>
      rcases track_egress_at skb ctx m k with h | ⟨-, hnone, -⟩ | ⟨-, met0, hm0, hr⟩
      · rw [show applyOp m (FlowOp.out skb ctx) k = (track_egress skb ctx m).1 k from rfl,
          h, hm] at he
        cases he
        exact ⟨le_refl _, le_refl _, le_refl _, le_refl _⟩
      · rw [hm] at hnone
        cases hnone
      · rw [hm] at hm0
        cases hm0
        rw [show applyOp m (FlowOp.out skb ctx) k = (track_egress skb ctx m).1 k from rfl,
          hr] at he
        cases he
        refine ⟨?_, ?_, ?_, ?_⟩ <;> simp only [outboundBump] <;> omega
    | inn skb now =>
      rcases track_ingress_at skb now m k with h | ⟨-, met0, hm0, hr⟩
      · rw [show applyOp m (FlowOp.inn skb now) k = (track_ingress skb now m).1 k from rfl,
          h, hm] at he
        cases he
        exact ⟨le_refl _, le_refl _, le_refl _, le_refl _⟩
      · rw [hm] at hm0
        cases hm0
        rw [show applyOp m (FlowOp.inn skb now) k = (track_ingress skb now m).1 k from rfl,
          hr] at he
        cases he
        refine ⟨?_, ?_, ?_, ?_⟩ <;> simp only [inboundBump] <;> omega
  · intro k skb ctx ops m hm hop hops
    obtain ⟨hp, hkk, hins⟩ := hop
    have hfirst : applyOp m (FlowOp.out skb ctx) k = some (outboundFresh skb ctx) := by
      show (track_egress skb ctx m).1 k = _
      rw [track_egress_parsed skb ctx m hp]
      simp only [hkk, hm, hins, if_true]
      exact Function.update_same _ _ _
    obtain ⟨met, h1, h2, h3, h4, h5⟩ :=
      runOps_keyed_sum k ops (applyOp m (FlowOp.out skb ctx))
        (outboundFresh skb ctx) hops hfirst
    refine ⟨met, h1, ?_, ?_, ?_, ?_⟩ <;>
      simp only [outboundFresh] at h2 h3 h4 h5 <;>
      omega

/-- Witness for C9: the keyed-sequence conjunct at one outbound packet
followed by one inbound reply, on the empty table. -/
theorem c9_witness :
    Option.map
      (fun met => (met.bytes_sent, met.packets_sent, met.bytes_received,
        met.packets_received))
      (runOps emptyTable [FlowOp.out skbOut0 ctxOut0, FlowOp.inn skbIn0 7]
        (egressKey skbOut0)) = some (100, 1, 50, 1) := by
  obtain ⟨met, h1, h2, h3, h4, h5⟩ :=
    c9_direction_counters.2.2.2 (egressKey skbOut0) skbOut0 ctxOut0
      [FlowOp.inn skbIn0 7] emptyTable rfl
      (by
        refine ⟨by decide, rfl, rfl⟩)
      (by
        intro op hop
        rw [List.mem_singleton] at hop
        rw [hop]
        exact ⟨by decide, by decide⟩)
  rw [h1, Option.map_some']
  simp only [List.map_cons, List.map_nil, List.sum_cons, List.sum_nil,
    outLen, outCnt, inLen, inCnt] at h2 h3 h4 h5
  rw [h2, h3, h4, h5]
  rfl
